import Mathlib

/-!
# Chordagon core pipeline — shallow embedding

Embedding of the note-event pipeline of `src/main.cpp` and the interval
classifier of `src/shaders.h`:

* `NoteMap` models the `std::map<char, float> noteAngles` (key = MIDI note
  number, value = angle in radians); `mapInsert` models `operator[]`
  assignment (insert-or-overwrite keeping keys sorted), `mapErase` models
  `erase`, `mapSize` models `size()`.
* `processMessage` is the body of the per-message loop of
  `updateNoteAngles` (main.cpp lines 434–458); `updateNoteAngles` folds it
  over the drained message list.
* `noteAnglesArr` models the dense copy of the map values into the
  `noteAnglesArr[maxNotes]` uniform array in `draw` (main.cpp lines 470–477).
* `indices` is the hardcoded edge index table (main.cpp lines 50–171; the
  same table appears in the line geometry shader), and `drawLineIndexCount`
  is the element count passed to `glDrawElements` (main.cpp line 491).
* `classify` is the colour computation of the line geometry shader
  (shaders.h lines 229–230), with `glslMod` the GLSL `mod` function
  `mod(a, b) = a - b * floor(a / b)`.

Machine floating point (C++ `double`/`float`, GLSL `float`) is idealised as
`ℝ`; in particular the source's `#define TWOPI 6.283185307179586` (the
closest double to 2π) is embedded as the real number `2 * π`.
-/

namespace Chordagon

/-- Maximum number of simultaneously displayable notes (main.cpp line 46). -/
def maxNotes : Nat := 16

/-- The source's `TWOPI` macro: the double literal `6.283185307179586`,
idealised as the real number 2π. -/
noncomputable def TWOPI : ℝ := 2 * Real.pi

/-- The MIDI message types the update loop distinguishes
(`libremidi::message_type`): note-on, note-off, or anything else. -/
inductive MessageType where
  | noteOn : MessageType
  | noteOff : MessageType
  | other : MessageType
deriving DecidableEq

/-- A MIDI message as consumed by `updateNoteAngles`: its type
(`m.get_message_type()`), its data byte 1 (`m.bytes[1]`, the note number)
and its data byte 2 (`m.bytes[2]`, the velocity). -/
structure MidiMessage where
  type : MessageType
  byte1 : Nat
  byte2 : Nat

/-- The tuning resolver `MTS_NoteToFrequency(c, noteNumber, 0)`: a function
from note number to frequency in Hz, abstracting the MTS client state. -/
abbrev Tuning : Type := Nat → ℝ

/-- Model of `std::map<char, float>`: an association list of
(note number, angle) pairs kept sorted by strictly increasing key. -/
abbrev NoteMap : Type := List (Nat × ℝ)

/-- `noteAngles.erase(k)`: remove the entry with key `k`, if present. -/
def mapErase (k : Nat) : NoteMap → NoteMap
  | [] => []
  | (a, b) :: t => if a = k then t else (a, b) :: mapErase k t

/-- `noteAngles[k] = v`: insert or overwrite the entry for key `k`,
keeping keys in increasing order (as `std::map` iteration order does). -/
def mapInsert (k : Nat) (v : ℝ) : NoteMap → NoteMap
  | [] => [(k, v)]
  | (a, b) :: t =>
    if k < a then (k, v) :: (a, b) :: t
    else if k = a then (k, v) :: t
    else (a, b) :: mapInsert k v t

/-- `noteAngles.size()`. -/
def mapSize (m : NoteMap) : Nat := m.length

/-- `noteAngles.contains(k)` (membership of a key). -/
def mapContains (k : Nat) : NoteMap → Bool
  | [] => false
  | (a, _) :: t => a == k || mapContains k t

/-- The angle stored for key `k`, when present. -/
def mapLookup (k : Nat) : NoteMap → Option ℝ
  | [] => none
  | (a, b) :: t => if a = k then some b else mapLookup k t

/-- The keys of the map in iteration order. -/
def mapKeys (m : NoteMap) : List Nat := m.map Prod.fst

/-- The values of the map in iteration order
(`std::views::values(noteAngles)`). -/
def mapValues (m : NoteMap) : List ℝ := m.map Prod.snd

/-- The angle computed for an accepted note-on (main.cpp lines 449–450):
`TWOPI * log2(freq / 440.0)` with `freq = MTS_NoteToFrequency(c, n, 0)`. -/
noncomputable def noteAngleOf (c : Tuning) (noteNumber : Nat) : ℝ :=
  TWOPI * Real.logb 2 (c noteNumber / 440)

/-- One iteration of the `while (midiMessageQueue.try_dequeue(m))` loop of
`updateNoteAngles` (main.cpp lines 436–457): the note-on branch (velocity 0
erases; otherwise insert when `size() < maxNotes`) followed by the separate
note-off check. -/
noncomputable def processMessage (c : Tuning) (noteAngles : NoteMap)
    (m : MidiMessage) : NoteMap :=
  let afterNoteOn :=
    if m.type = MessageType.noteOn then
      if m.byte2 = 0 then
        mapErase m.byte1 noteAngles
      else if mapSize noteAngles < maxNotes then
        mapInsert m.byte1 (noteAngleOf c m.byte1) noteAngles
      else
        noteAngles
    else
      noteAngles
  if m.type = MessageType.noteOff then mapErase m.byte1 afterNoteOn
  else afterNoteOn

/-- `updateNoteAngles` (main.cpp lines 427–459): process the drained
messages in FIFO order, one at a time. -/
noncomputable def updateNoteAngles (c : Tuning) (noteAngles : NoteMap)
    (ms : List MidiMessage) : NoteMap :=
  ms.foldl (processMessage c) noteAngles

/-- The dense per-frame angle array of `draw` (main.cpp lines 470–477): the
map's values in iteration order copied to the front of a `maxNotes`-sized
zero-initialised array. -/
def noteAnglesArr (noteAngles : NoteMap) : List ℝ :=
  mapValues noteAngles ++ List.replicate (maxNotes - mapSize noteAngles) 0

/-- The element count passed to `glDrawElements` for the interval lines
(main.cpp line 491): `noteAngles.size() * (noteAngles.size() - 1)`. -/
def drawLineIndexCount (k : Nat) : Nat := k * (k - 1)

/-- The hardcoded edge index table `indices[]` (main.cpp lines 50–171),
flattened as in the source; the identical table appears in the line
geometry shader (shaders.h lines 102–223). -/
def indices : List Nat := [
  0, 1,
  0, 2,
  1, 2,
  0, 3,
  1, 3,
  2, 3,
  0, 4,
  1, 4,
  2, 4,
  3, 4,
  0, 5,
  1, 5,
  2, 5,
  3, 5,
  4, 5,
  0, 6,
  1, 6,
  2, 6,
  3, 6,
  4, 6,
  5, 6,
  0, 7,
  1, 7,
  2, 7,
  3, 7,
  4, 7,
  5, 7,
  6, 7,
  0, 8,
  1, 8,
  2, 8,
  3, 8,
  4, 8,
  5, 8,
  6, 8,
  7, 8,
  0, 9,
  1, 9,
  2, 9,
  3, 9,
  4, 9,
  5, 9,
  6, 9,
  7, 9,
  8, 9,
  0, 10,
  1, 10,
  2, 10,
  3, 10,
  4, 10,
  5, 10,
  6, 10,
  7, 10,
  8, 10,
  9, 10,
  0, 11,
  1, 11,
  2, 11,
  3, 11,
  4, 11,
  5, 11,
  6, 11,
  7, 11,
  8, 11,
  9, 11,
  10, 11,
  0, 12,
  1, 12,
  2, 12,
  3, 12,
  4, 12,
  5, 12,
  6, 12,
  7, 12,
  8, 12,
  9, 12,
  10, 12,
  11, 12,
  0, 13,
  1, 13,
  2, 13,
  3, 13,
  4, 13,
  5, 13,
  6, 13,
  7, 13,
  8, 13,
  9, 13,
  10, 13,
  11, 13,
  12, 13,
  0, 14,
  1, 14,
  2, 14,
  3, 14,
  4, 14,
  5, 14,
  6, 14,
  7, 14,
  8, 14,
  9, 14,
  10, 14,
  11, 14,
  12, 14,
  13, 14,
  0, 15,
  1, 15,
  2, 15,
  3, 15,
  4, 15,
  5, 15,
  6, 15,
  7, 15,
  8, 15,
  9, 15,
  10, 15,
  11, 15,
  12, 15,
  13, 15,
  14, 15
]

/-- Group a flattened index list into the (i, j) vertex pairs of the line
segments it describes (`GL_LINES` consumes indices two at a time). -/
def pairUp : List Nat → List (Nat × Nat)
  | a :: b :: t => (a, b) :: pairUp t
  | _ => []

/-- The edge table read as a list of slot-index pairs. -/
def indexPairs : List (Nat × Nat) := pairUp indices

/-- Written from the spec's words, for comparison with `indexPairs`: all
unordered slot-index pairs (i, j) with `0 ≤ i < j < maxNotes`, ordered by
ascending j then ascending i. -/
def specEdgePairs : List (Nat × Nat) :=
  (List.range maxNotes).flatMap fun j => (List.range j).map fun i => (i, j)

/-- GLSL `mod(a, b) = a - b * floor(a / b)`. -/
noncomputable def glslMod (a b : ℝ) : ℝ := a - b * ⌊a / b⌋

/-- The interval classifier of the line geometry shader (shaders.h lines
229–230): `x = mod(abs(phi2 - phi1) / PI, 2.0); color = x < 1 ? x : 2 - x`,
with GLSL `float` idealised as `ℝ` and `PI` as π. -/
noncomputable def classify (phi1 phi2 : ℝ) : ℝ :=
  let x := glslMod (|phi2 - phi1| / Real.pi) 2
  if x < 1 then x else 2 - x

/-- The branch `x < 1 ? x : 2 - x` of the classifier, named so the folding
step can be reasoned about separately. -/
noncomputable def foldColor (x : ℝ) : ℝ := if x < 1 then x else 2 - x

/-- A concrete active-note state at full capacity: note numbers 0–15, each
with angle 0. -/
def fullState : NoteMap :=
  [(0, 0), (1, 0), (2, 0), (3, 0), (4, 0), (5, 0), (6, 0), (7, 0),
   (8, 0), (9, 0), (10, 0), (11, 0), (12, 0), (13, 0), (14, 0), (15, 0)]

/-! ### Basic properties of the map operations -/

/-- The key invariant of the `std::map` model: entries are sorted by
strictly increasing key. -/
def SortedMap (m : NoteMap) : Prop := m.Pairwise (fun p q => p.1 < q.1)

theorem mapErase_sublist (k : Nat) (m : NoteMap) :
    List.Sublist (mapErase k m) m := by
  induction m with
  | nil => simp [mapErase]
  | cons p t ih =>
    obtain ⟨a, b⟩ := p
    by_cases h : a = k
    · simp only [mapErase, if_pos h]
      exact List.sublist_cons_self (a, b) t
    · simpa [mapErase, h] using ih.cons₂ (a, b)

theorem length_mapErase_le (k : Nat) (m : NoteMap) :
    (mapErase k m).length ≤ m.length :=
  (mapErase_sublist k m).length_le

theorem mapErase_of_contains_eq_false (k : Nat) (m : NoteMap)
    (h : mapContains k m = false) : mapErase k m = m := by
  induction m with
  | nil => rfl
  | cons p t ih =>
    obtain ⟨a, b⟩ := p
    simp only [mapContains, Bool.or_eq_false_iff, beq_eq_false_iff_ne,
      ne_eq] at h
    simp [mapErase, h.1, ih h.2]

theorem length_mapInsert_le (k : Nat) (v : ℝ) (m : NoteMap) :
    (mapInsert k v m).length ≤ m.length + 1 := by
  induction m with
  | nil => simp [mapInsert]
  | cons p t ih =>
    obtain ⟨a, b⟩ := p
    by_cases h1 : k < a
    · simp [mapInsert, h1]
    · by_cases h2 : k = a
      · simp [mapInsert, h1, h2]
      · simpa [mapInsert, h1, h2] using Nat.succ_le_succ ih

theorem mem_mapInsert (p : Nat × ℝ) (k : Nat) (v : ℝ) (m : NoteMap)
    (hp : p ∈ mapInsert k v m) : p = (k, v) ∨ p ∈ m := by
  induction m with
  | nil => simpa [mapInsert] using hp
  | cons q t ih =>
    obtain ⟨a, b⟩ := q
    by_cases h1 : k < a
    · simp only [mapInsert, if_pos h1, List.mem_cons] at hp
      rcases hp with h | h | h
      · exact Or.inl h
      · exact Or.inr (by simp [h])
      · exact Or.inr (List.mem_cons_of_mem _ h)
    · by_cases h2 : k = a
      · simp only [mapInsert, if_neg h1, if_pos h2, List.mem_cons] at hp
        rcases hp with h | h
        · exact Or.inl h
        · exact Or.inr (List.mem_cons_of_mem _ h)
      · simp only [mapInsert, if_neg h1, if_neg h2, List.mem_cons] at hp
        rcases hp with h | h
        · exact Or.inr (by simp [h])
        · rcases ih h with h' | h'
          · exact Or.inl h'
          · exact Or.inr (List.mem_cons_of_mem _ h')

theorem mapLookup_mapInsert_self (k : Nat) (v : ℝ) (m : NoteMap) :
    mapLookup k (mapInsert k v m) = some v := by
  induction m with
  | nil => simp [mapInsert, mapLookup]
  | cons q t ih =>
    obtain ⟨a, b⟩ := q
    by_cases h1 : k < a
    · simp [mapInsert, mapLookup, h1]
    · by_cases h2 : k = a
      · simp [mapInsert, mapLookup, h1, h2]
      · have hne : a ≠ k := fun h => h2 h.symm
        simp [mapInsert, mapLookup, h1, h2, hne, ih]

theorem sortedMap_mapErase (k : Nat) (m : NoteMap) (hm : SortedMap m) :
    SortedMap (mapErase k m) :=
  hm.sublist (mapErase_sublist k m)

theorem sortedMap_mapInsert (k : Nat) (v : ℝ) (m : NoteMap)
    (hm : SortedMap m) : SortedMap (mapInsert k v m) := by
  induction m with
  | nil => simp [mapInsert, SortedMap]
  | cons q t ih =>
    obtain ⟨a, b⟩ := q
    rw [SortedMap, List.pairwise_cons] at hm
    obtain ⟨ha, ht⟩ := hm
    by_cases h1 : k < a
    · rw [SortedMap, mapInsert, if_pos h1]
      refine List.pairwise_cons.mpr ⟨?_, List.pairwise_cons.mpr ⟨ha, ht⟩⟩
      intro p hp
      rcases List.mem_cons.mp hp with h | h
      · simpa [h] using h1
      · exact lt_trans h1 (ha p h)
    · by_cases h2 : k = a
      · rw [SortedMap, mapInsert, if_neg h1, if_pos h2]
        refine List.pairwise_cons.mpr ⟨?_, ht⟩
        intro p hp
        simpa [h2] using ha p hp
      · rw [SortedMap, mapInsert, if_neg h1, if_neg h2]
        refine List.pairwise_cons.mpr ⟨?_, ih ht⟩
        intro p hp
        rcases mem_mapInsert p k v t hp with h | h
        · have : a < k := by omega
          simpa [h] using this
        · exact ha p h

/-! ### Invariants of the message-processing step -/

theorem mapSize_processMessage_le (c : Tuning) (s : NoteMap)
    (m : MidiMessage) (hs : mapSize s ≤ maxNotes) :
    mapSize (processMessage c s m) ≤ maxNotes := by
  simp only [processMessage]
  have hstep : ∀ t : NoteMap, mapSize t ≤ maxNotes →
      mapSize (if m.type = MessageType.noteOff then mapErase m.byte1 t else t)
        ≤ maxNotes := by
    intro t ht
    split
    · exact le_trans (length_mapErase_le _ _) ht
    · exact ht
  apply hstep
  split
  · split
    · exact le_trans (length_mapErase_le _ _) hs
    · split
      · next hlt => exact le_trans (length_mapInsert_le _ _ _) hlt
      · exact hs
  · exact hs

theorem sortedMap_processMessage (c : Tuning) (s : NoteMap)
    (m : MidiMessage) (hs : SortedMap s) :
    SortedMap (processMessage c s m) := by
  simp only [processMessage]
  have hstep : ∀ t : NoteMap, SortedMap t →
      SortedMap (if m.type = MessageType.noteOff then mapErase m.byte1 t
                 else t) := by
    intro t ht
    split
    · exact sortedMap_mapErase _ _ ht
    · exact ht
  apply hstep
  split
  · split
    · exact sortedMap_mapErase _ _ hs
    · split
      · exact sortedMap_mapInsert _ _ _ hs
      · exact hs
  · exact hs

theorem mapSize_updateNoteAngles_le (c : Tuning) (s : NoteMap)
    (ms : List MidiMessage) (hs : mapSize s ≤ maxNotes) :
    mapSize (updateNoteAngles c s ms) ≤ maxNotes := by
  induction ms generalizing s with
  | nil => exact hs
  | cons m t ih =>
    rw [updateNoteAngles, List.foldl_cons]
    exact ih (processMessage c s m) (mapSize_processMessage_le c s m hs)

theorem sortedMap_updateNoteAngles (c : Tuning) (s : NoteMap)
    (ms : List MidiMessage) (hs : SortedMap s) :
    SortedMap (updateNoteAngles c s ms) := by
  induction ms generalizing s with
  | nil => exact hs
  | cons m t ih =>
    rw [updateNoteAngles, List.foldl_cons]
    exact ih (processMessage c s m) (sortedMap_processMessage c s m hs)

/-! ### Properties of GLSL `mod` with modulus 2 and of the colour fold -/

theorem glslMod_two_eq_fract (a : ℝ) :
    glslMod a 2 = 2 * Int.fract (a / 2) := by
  rw [glslMod, ← Int.self_sub_floor (a / 2)]
  ring

theorem glslMod_two_nonneg (a : ℝ) : 0 ≤ glslMod a 2 := by
  rw [glslMod_two_eq_fract]
  have := Int.fract_nonneg (a / 2)
  linarith

theorem glslMod_two_lt_two (a : ℝ) : glslMod a 2 < 2 := by
  rw [glslMod_two_eq_fract]
  have := Int.fract_lt_one (a / 2)
  linarith

theorem glslMod_two_add_two (a : ℝ) : glslMod (a + 2) 2 = glslMod a 2 := by
  rw [glslMod_two_eq_fract, glslMod_two_eq_fract]
  have h : (a + 2) / 2 = a / 2 + (1 : ℤ) := by push_cast; ring
  rw [h, Int.fract_add_int]

theorem glslMod_two_sub_two (a : ℝ) : glslMod (a - 2) 2 = glslMod a 2 := by
  have h := glslMod_two_add_two (a - 2)
  simpa using h.symm

theorem glslMod_two_zero : glslMod 0 2 = 0 := by
  rw [glslMod_two_eq_fract]
  simp

theorem foldColor_glslMod_neg (a : ℝ) :
    foldColor (glslMod (-a) 2) = foldColor (glslMod a 2) := by
  rw [glslMod_two_eq_fract, glslMod_two_eq_fract, neg_div]
  by_cases h : Int.fract (a / 2) = 0
  · rw [Int.fract_neg_eq_zero.mpr h, h]
  · rw [Int.fract_neg h]
    set t := Int.fract (a / 2) with ht
    have h0 : 0 ≤ t := Int.fract_nonneg _
    have h1 : t < 1 := Int.fract_lt_one _
    rw [foldColor, foldColor]
    by_cases hc : 2 * t < 1
    · rw [if_neg (by linarith), if_pos hc]
      linarith
    · by_cases hc2 : 2 * (1 - t) < 1
      · rw [if_pos hc2, if_neg hc]
        linarith
      · rw [if_neg hc2, if_neg hc]
        linarith

theorem foldColor_glslMod_abs (a : ℝ) :
    foldColor (glslMod |a| 2) = foldColor (glslMod a 2) := by
  rcases abs_choice a with h | h
  · rw [h]
  · rw [h, foldColor_glslMod_neg]

/-! ### The claims -/

/-- C1: for every sequence of drained note events processed by
`updateNoteAngles`, starting from the empty map, the size of the active
note set is between 0 and `maxNotes = 16` after processing each individual
event (that is, after every prefix of the sequence). -/
theorem activeNoteSet_size_invariant (c : Tuning) (ms : List MidiMessage)
    (n : Nat) :
    0 ≤ mapSize (updateNoteAngles c [] (ms.take n)) ∧
    mapSize (updateNoteAngles c [] (ms.take n)) ≤ maxNotes :=
  ⟨Nat.zero_le _,
   mapSize_updateNoteAngles_le c [] (ms.take n) (by decide)⟩

/-- C2: every accepted velocity>0 note-on (set below capacity) stores the
angle `TWOPI * log2(frequencyOf(noteId) / 440)` for its note, and when the
tuning resolves the note to exactly 880 Hz that stored angle is `2π`,
unreduced. -/
theorem noteOn_stores_logarithmic_angle (c : Tuning) (s : NoteMap)
    (n v : Nat) (hv : v ≠ 0) (hs : mapSize s < maxNotes) :
    mapLookup n (processMessage c s ⟨MessageType.noteOn, n, v⟩)
      = some (TWOPI * Real.logb 2 (c n / 440)) ∧
    (c n = 880 → TWOPI * Real.logb 2 (c n / 440) = 2 * Real.pi) := by
  constructor
  · simp [processMessage, noteAngleOf, hv, hs, mapLookup_mapInsert_self]
  · intro h880
    rw [h880]
    have h2 : (880 : ℝ) / 440 = 2 := by norm_num
    rw [h2, Real.logb_self_eq_one (by norm_num), mul_one, TWOPI]

/-- Witness for C2: on the empty set, a note-on for note 69 with velocity
100 under a tuning resolving every note to 880 Hz stores exactly the
angle 2π. -/
theorem noteOn_stores_logarithmic_angle_witness :
    ((100 : Nat) ≠ 0 ∧ mapSize ([] : NoteMap) < maxNotes) ∧
    mapLookup 69 (processMessage (fun _ => (880 : ℝ)) []
      ⟨MessageType.noteOn, 69, 100⟩) = some (2 * Real.pi) := by
  have h := noteOn_stores_logarithmic_angle (fun _ => (880 : ℝ)) [] 69 100
    (by decide) (by decide)
  exact ⟨⟨by decide, by decide⟩, by rw [h.1, h.2 rfl]⟩

/-- C3: for every reachable state (any drained event sequence applied to
the empty map) the per-frame output array is densely packed — its first
`k = size` entries are exactly the active notes' angles in ascending
noteId order (the keys are strictly increasing), and the array has the
fixed length `maxNotes`. -/
theorem angles_densely_packed (c : Tuning) (ms : List MidiMessage) :
    List.Sorted (· < ·) (mapKeys (updateNoteAngles c [] ms)) ∧
    (noteAnglesArr (updateNoteAngles c [] ms)).take
        (mapSize (updateNoteAngles c [] ms))
      = mapValues (updateNoteAngles c [] ms) ∧
    (noteAnglesArr (updateNoteAngles c [] ms)).length = maxNotes := by
  have hsorted : SortedMap (updateNoteAngles c [] ms) :=
    sortedMap_updateNoteAngles c [] ms (by simp [SortedMap])
  have hsize : mapSize (updateNoteAngles c [] ms) ≤ maxNotes :=
    mapSize_updateNoteAngles_le c [] ms (by decide)
  refine ⟨List.pairwise_map.mpr hsorted, ?_, ?_⟩
  · have hlen : (mapValues (updateNoteAngles c [] ms)).length
        = mapSize (updateNoteAngles c [] ms) := by
      simp [mapValues, mapSize]
    rw [noteAnglesArr, ← hlen, List.take_left]
  · rw [noteAnglesArr]
    rw [List.length_append, List.length_replicate]
    have hlen : (mapValues (updateNoteAngles c [] ms)).length
        = mapSize (updateNoteAngles c [] ms) := by
      simp [mapValues, mapSize]
    rw [hlen]
    omega

/-- C4: when the set already holds `maxNotes` entries, a velocity>0
note-on for a note that is not active is silently ignored — the state is
unchanged, the size stays `maxNotes`, the rejected note is still absent,
and the per-frame angle array is unchanged. -/
theorem noteOn_at_capacity_ignored (c : Tuning) (s : NoteMap) (n v : Nat)
    (hv : v ≠ 0) (hfull : mapSize s = maxNotes)
    (hn : mapContains n s = false) :
    processMessage c s ⟨MessageType.noteOn, n, v⟩ = s ∧
    mapSize (processMessage c s ⟨MessageType.noteOn, n, v⟩) = maxNotes ∧
    mapContains n (processMessage c s ⟨MessageType.noteOn, n, v⟩) = false ∧
    noteAnglesArr (processMessage c s ⟨MessageType.noteOn, n, v⟩)
      = noteAnglesArr s := by
  have hstate : processMessage c s ⟨MessageType.noteOn, n, v⟩ = s := by
    simp [processMessage, hv, hfull]
  refine ⟨hstate, ?_, ?_, ?_⟩
  · rw [hstate, hfull]
  · rw [hstate]; exact hn
  · rw [hstate]

/-- Witness for C4: with notes 0–15 active (capacity reached), a note-on
for note 16 with velocity 50 leaves the state unchanged. -/
theorem noteOn_at_capacity_ignored_witness :
    ((50 : Nat) ≠ 0 ∧ mapSize fullState = maxNotes ∧
      mapContains 16 fullState = false) ∧
    processMessage (fun _ => (440 : ℝ)) fullState
      ⟨MessageType.noteOn, 16, 50⟩ = fullState := by
  have h := noteOn_at_capacity_ignored (fun _ => (440 : ℝ)) fullState 16 50
    (by decide) (by rfl) (by rfl)
  exact ⟨⟨by decide, by rfl, by rfl⟩, h.1⟩

set_option maxRecDepth 4000

/-- C5: the hardcoded edge table lists all unordered slot-index pairs
(i, j) with `0 ≤ i < j < maxNotes`, ordered by ascending j then
ascending i; for every `k ≤ 16` its first `k·(k−1)/2` pairs are exactly
the pairs with both indices below `k`; and the draw call submits
`k·(k−1)` indices for `k` active notes, i.e. `k·(k−1)/2` line segments —
exactly the first `k·(k−1)/2` pairs of the table. -/
theorem edge_enumeration_correct :
    indexPairs = specEdgePairs ∧
    (∀ k : Fin 17, indexPairs.take (k.val * (k.val - 1) / 2)
      = indexPairs.filter fun p =>
          decide (p.1 < k.val) && decide (p.2 < k.val)) ∧
    (∀ k : Fin 17, drawLineIndexCount k.val = 2 * (k.val * (k.val - 1) / 2)) ∧
    (∀ k : Fin 17, pairUp (indices.take (drawLineIndexCount k.val))
      = indexPairs.take (k.val * (k.val - 1) / 2)) :=
  ⟨by decide, by decide, by decide, by decide⟩

/-- C6: the interval classifier maps unison to 0, is symmetric in its two
arguments, and is 2π-periodic in its first argument (hence, by symmetry,
in each argument). -/
theorem classify_unison_symm_periodic (phi phi1 phi2 : ℝ) :
    classify phi phi = 0 ∧
    classify phi1 phi2 = classify phi2 phi1 ∧
    classify (phi1 + 2 * Real.pi) phi2 = classify phi1 phi2 := by
  refine ⟨?_, ?_, ?_⟩
  · show foldColor (glslMod (|phi - phi| / Real.pi) 2) = 0
    rw [sub_self, abs_zero, zero_div, glslMod_two_zero]
    simp [foldColor]
  · show foldColor (glslMod (|phi2 - phi1| / Real.pi) 2)
      = foldColor (glslMod (|phi1 - phi2| / Real.pi) 2)
    rw [abs_sub_comm]
  · show foldColor (glslMod (|phi2 - (phi1 + 2 * Real.pi)| / Real.pi) 2)
      = foldColor (glslMod (|phi2 - phi1| / Real.pi) 2)
    have hpi : (0 : ℝ) < Real.pi := Real.pi_pos
    have hd : phi2 - (phi1 + 2 * Real.pi)
        = (phi2 - phi1) - 2 * Real.pi := by ring
    have e1 : |(phi2 - phi1) - 2 * Real.pi| / Real.pi
        = |(phi2 - phi1) / Real.pi - 2| := by
      have h2 : (phi2 - phi1) / Real.pi - 2
          = ((phi2 - phi1) - 2 * Real.pi) / Real.pi := by
        field_simp
        ring
      rw [h2, abs_div, abs_of_pos hpi]
    have e2 : |phi2 - phi1| / Real.pi = |(phi2 - phi1) / Real.pi| := by
      rw [abs_div, abs_of_pos hpi]
    rw [hd, e1, foldColor_glslMod_abs, glslMod_two_sub_two, e2,
      foldColor_glslMod_abs]

/-- C7: the classifier is the pure function
`x < 1 ? x : 2 - x` of `x = mod(|φ2 − φ1| / π, 2)`, and its result always
lies in the closed interval [0, 1]. -/
theorem classify_formula_and_range (phi1 phi2 : ℝ) :
    classify phi1 phi2
      = (if glslMod (|phi2 - phi1| / Real.pi) 2 < 1
         then glslMod (|phi2 - phi1| / Real.pi) 2
         else 2 - glslMod (|phi2 - phi1| / Real.pi) 2) ∧
    0 ≤ classify phi1 phi2 ∧ classify phi1 phi2 ≤ 1 := by
  have h0 := glslMod_two_nonneg (|phi2 - phi1| / Real.pi)
  have h2 := glslMod_two_lt_two (|phi2 - phi1| / Real.pi)
  refine ⟨rfl, ?_, ?_⟩
  · show (0 : ℝ) ≤ foldColor (glslMod (|phi2 - phi1| / Real.pi) 2)
    rw [foldColor]
    split <;> linarith
  · show foldColor (glslMod (|phi2 - phi1| / Real.pi) 2) ≤ 1
    rw [foldColor]
    split <;> linarith

/-- C8: from every starting state, a velocity-0 note-on for note n
produces exactly the same state as a note-off for n (whatever the
note-off's velocity byte is), and a note-off for a note that is not
active leaves the state unchanged. -/
theorem velocity_zero_equals_noteOff (c : Tuning) (s : NoteMap)
    (n v : Nat) :
    processMessage c s ⟨MessageType.noteOn, n, 0⟩
      = processMessage c s ⟨MessageType.noteOff, n, v⟩ ∧
    (mapContains n s = false →
      processMessage c s ⟨MessageType.noteOff, n, v⟩ = s) := by
  constructor
  · simp [processMessage]
  · intro h
    simp [processMessage, mapErase_of_contains_eq_false n s h]

/-- Witness for C8: with only note 3 active, note 5 is absent, and a
note-off for note 5 leaves the state unchanged (and equals the effect of
a velocity-0 note-on for note 5). -/
theorem velocity_zero_equals_noteOff_witness :
    mapContains 5 [((3 : Nat), (0 : ℝ))] = false ∧
    processMessage (fun _ => (440 : ℝ)) [((3 : Nat), (0 : ℝ))]
      ⟨MessageType.noteOff, 5, 64⟩ = [((3 : Nat), (0 : ℝ))] := by
  have h := velocity_zero_equals_noteOff (fun _ => (440 : ℝ))
    [((3 : Nat), (0 : ℝ))] 5 64
  exact ⟨by rfl, h.2 (by rfl)⟩

/-- C10: a velocity>0 note-on for an already-active note arriving while
the set is at capacity is ignored exactly like one for a new note: the
state is unchanged (so the existing entry keeps its stored angle), and
the result does not depend on the tuning resolver — a retrigger at full
capacity never refreshes an angle under a changed tuning. -/
theorem retrigger_at_capacity_ignored (c c' : Tuning) (s : NoteMap)
    (n v : Nat) (hv : v ≠ 0) (hfull : mapSize s = maxNotes)
    (_hn : mapContains n s = true) :
    processMessage c s ⟨MessageType.noteOn, n, v⟩ = s ∧
    mapLookup n (processMessage c s ⟨MessageType.noteOn, n, v⟩)
      = mapLookup n s ∧
    processMessage c s ⟨MessageType.noteOn, n, v⟩
      = processMessage c' s ⟨MessageType.noteOn, n, v⟩ := by
  have hstate : ∀ t : Tuning,
      processMessage t s ⟨MessageType.noteOn, n, v⟩ = s := by
    intro t
    simp [processMessage, hv, hfull]
  exact ⟨hstate c, by rw [hstate c], by rw [hstate c, hstate c']⟩

/-- Witness for C10: with notes 0–15 active (note 5 among them), a
retrigger of note 5 at velocity 100 yields the same unchanged state under
a 440 Hz tuning and under an 880 Hz tuning. -/
theorem retrigger_at_capacity_ignored_witness :
    ((100 : Nat) ≠ 0 ∧ mapSize fullState = maxNotes ∧
      mapContains 5 fullState = true) ∧
    processMessage (fun _ => (440 : ℝ)) fullState
        ⟨MessageType.noteOn, 5, 100⟩
      = processMessage (fun _ => (880 : ℝ)) fullState
        ⟨MessageType.noteOn, 5, 100⟩ := by
  have h := retrigger_at_capacity_ignored (fun _ => (440 : ℝ))
    (fun _ => (880 : ℝ)) fullState 5 100 (by decide) (by rfl) (by rfl)
  exact ⟨⟨by decide, by rfl, by rfl⟩, h.2.2⟩

end Chordagon
